import Mathlib

/-!
Verification of the headscale control-plane core against its specification.

The Go source is shallowly embedded: pure functions become Lean functions,
stateful code becomes explicit state passing, machine integers become
`Nat`/`Int`.  Each section names the Go file and symbols it embeds.
-/

set_option linter.unusedVariables false

namespace Headscale

/-! ## tailcfg wire types

Modeled from the fields of `tailcfg.FilterRule`, `tailcfg.NetPortRange` and
`tailcfg.PortRange` that the policy compiler in
`hscontrol/policy/v2/filter.go` reads and writes (the remaining upstream
fields are never touched by this code and are left out). -/

/-- `tailcfg.PortRange{First, Last uint16}`. -/
structure PortRange where
  First : Nat
  Last : Nat
deriving Repr, DecidableEq

/-- `tailcfg.NetPortRange{IP string; Ports PortRange}`. -/
structure NetPortRange where
  IP : String
  Ports : PortRange
deriving Repr, DecidableEq

/-- The three fields of `tailcfg.FilterRule` that the compiler sets
(`SrcIPs`, `DstPorts`, `IPProto`); the merge in `mergeFilterRules`
constructs rules with exactly these fields. -/
structure FilterRule where
  SrcIPs : List String
  DstPorts : List NetPortRange
  IPProto : List Int
deriving Repr, DecidableEq

/-! ## hscontrol/policy/v2/filter.go: filterRuleKey and mergeFilterRules -/

/-- `filterRuleKey` (filter.go): join SrcIPs with ",", join the decimal
protocol numbers with ",", and concatenate with "|". -/
def filterRuleKey (rule : FilterRule) : String :=
  String.intercalate "," rule.SrcIPs ++ "|" ++
    String.intercalate "," (rule.IPProto.map toString)

/-- One iteration of the loop body of `mergeFilterRules`: if `result`
already holds a rule with the same key (the Go code finds it through the
`keyToIdx` map, which always points at the unique entry for that key),
append the incoming rule's `DstPorts` to it; otherwise append a new rule
built from the incoming rule's three fields (`slices.Clone` copies the
port list by value). -/
def mergeStep : List FilterRule → FilterRule → List FilterRule
  | [], rule =>
      [{ SrcIPs := rule.SrcIPs, DstPorts := rule.DstPorts, IPProto := rule.IPProto }]
  | r :: rs, rule =>
      if filterRuleKey r = filterRuleKey rule then
        { SrcIPs := r.SrcIPs, DstPorts := r.DstPorts ++ rule.DstPorts,
          IPProto := r.IPProto } :: rs
      else
        r :: mergeStep rs rule

/-- The main loop of `mergeFilterRules` over the input rules. -/
def mergeFold (rules : List FilterRule) : List FilterRule :=
  rules.foldl mergeStep []

/-- `mergeFilterRules` (filter.go): lists of length at most one are
returned unchanged, otherwise rules with identical keys are coalesced. -/
def mergeFilterRules (rules : List FilterRule) : List FilterRule :=
  if rules.length ≤ 1 then rules else mergeFold rules

/-- The rules of `rs` whose merge key is `k`. -/
def rulesWithKey (k : String) (rs : List FilterRule) : List FilterRule :=
  rs.filter (fun r => filterRuleKey r = k)

/-- What the spec says the merged output holds for key `k`: nothing if no
input rule has that key, otherwise a single rule carrying the first such
rule's `SrcIPs` and `IPProto` and the concatenation (without
deduplication) of all such rules' `DstPorts`. -/
def mergedRuleFor (k : String) (rs : List FilterRule) : List FilterRule :=
  match rulesWithKey k rs with
  | [] => []
  | r0 :: rest =>
      [{ SrcIPs := r0.SrcIPs,
         DstPorts := ((r0 :: rest).map FilterRule.DstPorts).flatten,
         IPProto := r0.IPProto }]

/-- All merge keys in the list are pairwise distinct. -/
def distinctKeys (l : List FilterRule) : Prop :=
  l.Pairwise (fun a b => filterRuleKey a ≠ filterRuleKey b)

/-! ## Change events

The `hscontrol/types/change` package is not part of the covered source;
only its use sites in `batcher_lockfree.go` are.  It is modelled from the
spec here. -/

/-- Modelled from the spec: the typed change kinds of the change bus
(`NodeCameOnline`, `NodeWentOffline`, `NodeRemove`, `Full`, `Policy`,
`PeerChanged`, ...). -/
inductive ChangeKind where
  | full
  | policy
  | nodeCameOnline
  | nodeWentOffline
  | nodeRemove
  | peerChanged
deriving Repr, DecidableEq

/-- Modelled from the spec: a change event is a tagged record
`{kind, nodeID, alsoSelf, selfUpdateOnly}`; `AlsoSelf` models the result
of the `AlsoSelf()` method on the change set. -/
structure ChangeSet where
  Change : ChangeKind
  NodeID : Nat
  SelfUpdateOnly : Bool
  AlsoSelf : Bool
deriving Repr, DecidableEq

/-! ## hscontrol/mapper/batcher_lockfree.go: the LockFreeBatcher

Node ids and channel identities are numbers; times are in seconds.
The two concurrent maps (`nodes`, `connected`) are association lists
looked up on the first matching key; the iteration order of `Range` over
known nodes is the order of the `known` list below. -/

/-- A work item (`work{c, nodeID, resultCh}`); the distribution paths
modelled here always queue asynchronous items (`resultCh = nil`). -/
structure work where
  c : ChangeSet
  nodeID : Nat
deriving Repr, DecidableEq

/-- `shouldProcessImmediately`: `Full`, `NodeRemove`, `NodeCameOnline`,
`NodeWentOffline` and `Policy` bypass batching. -/
def shouldProcessImmediately (c : ChangeSet) : Bool :=
  match c.Change with
  | .full | .nodeRemove | .nodeCameOnline | .nodeWentOffline | .policy => true
  | _ => false

/-- The `Range` loop in `addWork`'s immediate branch: skip a known node
when it is the change's own node and the change is not also-self,
otherwise queue one work item for it. -/
def immediateDistribution (known : List Nat) (c : ChangeSet) : List work :=
  known.foldl
    (fun acc nodeID =>
      if c.NodeID == nodeID && !c.AlsoSelf then acc
      else acc ++ [{ c := c, nodeID := nodeID }])
    []

/-- The target-collection loop of `addOnlineOfflineWork`: same skip rule,
collecting the target-node list submitted to the ordered lane. -/
def onlineOfflineTargets (known : List Nat) (c : ChangeSet) : List Nat :=
  known.foldl
    (fun acc nodeID =>
      if c.NodeID == nodeID && !c.AlsoSelf then acc
      else acc ++ [nodeID])
    []

/-- The nodes whose `pendingChanges` entry `addToBatch` appends the change
to: only the change's own node when `SelfUpdateOnly`, otherwise the
`Range` loop with the same skip rule. -/
def addToBatchTargets (known : List Nat) (c : ChangeSet) : List Nat :=
  if c.SelfUpdateOnly then [c.NodeID]
  else
    known.foldl
      (fun acc nodeID =>
        if c.NodeID == nodeID && !c.AlsoSelf then acc
        else acc ++ [nodeID])
      []

/-- The set of nodes `addWork` distributes a change to, following its
control flow: immediate changes either go only to the change's node
(`SelfUpdateOnly`), through the ordered lane (online/offline), or through
the immediate `Range` loop; everything else is batched. -/
def addWorkTargets (known : List Nat) (c : ChangeSet) : List Nat :=
  if shouldProcessImmediately c then
    if c.SelfUpdateOnly then [c.NodeID]
    else if c.Change == .nodeCameOnline || c.Change == .nodeWentOffline then
      onlineOfflineTargets known c
    else (immediateDistribution known c).map work.nodeID
  else addToBatchTargets known c

/-- What the spec says the target set is. -/
def specTargets (known : List Nat) (c : ChangeSet) : List Nat :=
  if c.SelfUpdateOnly then [c.NodeID]
  else known.filter (fun nodeID => !(c.NodeID == nodeID && !c.AlsoSelf))

/-- `orderedOnlineOfflineWork`: an online/offline change with its collected
target nodes and its sequence number. -/
structure orderedOnlineOfflineWork where
  c : ChangeSet
  targetNodes : List Nat
  seq : Nat
deriving Repr, DecidableEq

/-- The per-target work items of one ordered item, in the order the
single consumer of `doOnlineOfflineOrdering` queues them. -/
def orderedItems (ow : orderedOnlineOfflineWork) : List work :=
  ow.targetNodes.map (fun t => { c := ow.c, nodeID := t })

/-- `doOnlineOfflineOrdering`: the single consumer drains the FIFO lane
channel and, for each item, queues one work item per target into `workCh`
before moving to the next item.  `laneQueue` is the channel contents in
arrival order; the result is the `workCh` enqueue order. -/
def orderedLaneOutput (laneQueue : List orderedOnlineOfflineWork) : List work :=
  match laneQueue with
  | [] => []
  | ow :: rest => orderedItems ow ++ orderedLaneOutput rest

/-- The work items addressed to node `n`, in enqueue order. -/
def perNodeLane (n : Nat) (ws : List work) : List work :=
  ws.filter (fun w => w.nodeID == n)

/-- The state of the batcher that `AddNode` / `RemoveNode` / `IsConnected`
read and write: the `nodes` map from node id to the channel identities of
its connection set, and the `connected` map from node id to the disconnect
timestamp (`none` = connected). -/
structure BatcherState where
  nodes : List (Nat × List Nat)
  connected : List (Nat × Option Nat)
deriving Repr, DecidableEq

/-- `xsync.Map.Load` on the `nodes` map. -/
def lookupNodes (st : BatcherState) (id : Nat) : Option (List Nat) :=
  (st.nodes.find? (fun p => p.1 == id)).map Prod.snd

/-- `xsync.Map.Load` on the `connected` map. -/
def lookupConnected (st : BatcherState) (id : Nat) : Option (Option Nat) :=
  (st.connected.find? (fun p => p.1 == id)).map Prod.snd

/-- `xsync.Map.Store`: replace the first binding of the key, or add one. -/
def storeAssoc {α : Type} (m : List (Nat × α)) (id : Nat) (v : α) : List (Nat × α) :=
  match m with
  | [] => [(id, v)]
  | (k, w) :: rest => if k == id then (id, v) :: rest else (k, w) :: storeAssoc rest id v

/-- `multiChannelNodeConn.hasActiveConnections`: the connection list is
non-empty. -/
def hasActiveConnections (st : BatcherState) (id : Nat) : Bool :=
  match lookupNodes st id with
  | some conns => conns.length > 0
  | none => false

/-- The 45-second disconnect grace period of `IsConnected`. -/
def gracePeriod : Nat := 45

/-- `IsConnected` (batcher_lockfree.go): active connections first, then
the `connected` map — absent key is false, `nil` timestamp is connected,
otherwise the disconnect must be within the grace period.
`time.Since(ts) < gracePeriod` is `now - ts < 45` (a clock reading before
the stamp gives a negative duration in Go and `0` here; both are `< 45`). -/
def IsConnected (st : BatcherState) (now : Nat) (id : Nat) : Bool :=
  if hasActiveConnections st id then true
  else
    match lookupConnected st id with
    | none => false
    | some none => true
    | some (some ts) => now - ts < gracePeriod

/-- `multiChannelNodeConn.removeConnectionByChannel`: remove the first
connection entry with the matching channel identity; `none` when the
channel is not found. -/
def removeConnectionByChannel (conns : List Nat) (c : Nat) : Option (List Nat) :=
  match conns with
  | [] => none
  | e :: rest =>
      if e == c then some rest
      else (removeConnectionByChannel rest c).map (fun l => e :: l)

/-- `RemoveNode` (batcher_lockfree.go): look up the node's connection set,
remove the matching channel, and — when no active connections remain —
stamp the disconnect time while keeping the node entry alive.  Returns the
new state and the boolean result. -/
def RemoveNode (st : BatcherState) (now : Nat) (id : Nat) (c : Nat) :
    BatcherState × Bool :=
  match lookupNodes st id with
  | none => (st, false)
  | some conns =>
      match removeConnectionByChannel conns c with
      | none => (st, false)
      | some conns' =>
          let st' : BatcherState :=
            { st with nodes := storeAssoc st.nodes id conns' }
          if conns'.length > 0 then (st', true)
          else ({ st' with connected := storeAssoc st'.connected id (some now) }, true)

/-! ## IP addresses and CIDR ranges

`netip.Addr` and `netip.Prefix` are modelled by the address family and
the numeric value (32-bit for IPv4, 128-bit for IPv6). -/

/-- An IP address: family flag (`v6`) and numeric value. -/
structure Addr where
  v6 : Bool
  val : Nat
deriving Repr, DecidableEq

/-- A CIDR range (`netip.Prefix`): family, base value and mask length. -/
structure Cidr where
  v6 : Bool
  val : Nat
  bits : Nat
deriving Repr, DecidableEq

/-- The address width of the family. -/
def Cidr.width (p : Cidr) : Nat := if p.v6 then 128 else 32

/-- `netip.Prefix.Contains`: same family and equal upper `bits` bits. -/
def cidrContains (p : Cidr) (a : Addr) : Bool :=
  a.v6 == p.v6 && a.val >>> (p.width - p.bits) == p.val >>> (p.width - p.bits)

/-- One `netipx.IPSetBuilder` operation. -/
inductive SetOp where
  | add (p : Cidr)
  | remove (p : Cidr)
deriving Repr, DecidableEq

/-- Membership in the set built by a sequence of builder operations
(`AddPrefix` unions, `RemovePrefix` subtracts, applied in order). -/
def memberAfterOps (ops : List SetOp) (a : Addr) : Bool :=
  ops.foldl
    (fun b op =>
      match op with
      | .add p => b || cidrContains p a
      | .remove p => b && !cidrContains p a)
    false

/-- `tsaddr.AllIPv4()` = 0.0.0.0/0. -/
def allIPv4 : Cidr := { v6 := false, val := 0, bits := 0 }

/-- `tsaddr.AllIPv6()` = ::/0. -/
def allIPv6 : Cidr := { v6 := true, val := 0, bits := 0 }

/-- `tsaddr.TailscaleULARange()` = fd7a:115c:a1e0::/48. -/
def tailscaleULARange : Cidr := { v6 := true, val := 0xfd7a115ca1e0 * 2 ^ 80, bits := 48 }

/-- `tsaddr.CGNATRange()` = 100.64.0.0/10. -/
def cgnatRange : Cidr := { v6 := false, val := 100 * 2 ^ 24 + 64 * 2 ^ 16, bits := 10 }

/-- `strings.HasPrefix` (and `String.startsWith`), computed on the
character list. -/
def strStartsWith (s pre : String) : Bool := pre.toList.isPrefixOf s.toList

/-! ## src/unnamed/part_013 (package policyv2): theInternet and AutoGroup -/

namespace policyv2

/-- The builder operations of `theInternet()` (part_013), in source order:
add 2000::/3 and all of IPv4; remove fc00::/7 and the RFC1918 ranges;
remove the Tailscale ULA and CGNAT ranges; remove the link-local ranges
fe80::/10 and 169.254.0.0/16. -/
def theInternetOps : List SetOp :=
  [ .add { v6 := true, val := 0x2000 * 2 ^ 112, bits := 3 },
    .add allIPv4,
    .remove { v6 := true, val := 0xfc00 * 2 ^ 112, bits := 7 },
    .remove { v6 := false, val := 10 * 2 ^ 24, bits := 8 },
    .remove { v6 := false, val := 172 * 2 ^ 24 + 16 * 2 ^ 16, bits := 12 },
    .remove { v6 := false, val := 192 * 2 ^ 24 + 168 * 2 ^ 16, bits := 16 },
    .remove tailscaleULARange,
    .remove cgnatRange,
    .remove { v6 := true, val := 0xfe80 * 2 ^ 112, bits := 10 },
    .remove { v6 := false, val := 169 * 2 ^ 24 + 254 * 2 ^ 16, bits := 16 } ]

/-- Membership in the set returned by `theInternet()`.  The function is
deterministic, so every call returns the same set (the `:=` inside the Go
function shadows the package-level cache variable, so the cache is never
filled, but the rebuilt set is always this value). -/
def theInternet (a : Addr) : Bool := memberAfterOps theInternetOps a

/-- `AutoGroupInternet` (part_013). -/
def AutoGroupInternet : String := "autogroup:internet"

/-- `var autogroups = []string{AutoGroupInternet}` (part_013): the
declared closed set of this parser. -/
def autogroups : List String := [AutoGroupInternet]

/-- `strings.Trim(s, "\"")`: strip quote characters from both ends. -/
def trimQuotes (s : String) : String :=
  String.mk ((((s.toList.dropWhile (fun c => c == '\"')).reverse.dropWhile
    (fun c => c == '\"')).reverse))

/-- `AutoGroup.Validate` (part_013): accept exactly the members of
`autogroups`, reject everything else with a validation error. -/
def AutoGroupValidate (ag : String) : Except String Unit :=
  if ag ∈ autogroups then .ok ()
  else .error ("AutoGroup is invalid, got: " ++ ag)

/-- `AutoGroup.UnmarshalJSON` (part_013): trim the JSON quotes, then
validate; the parsed value is returned on success. -/
def AutoGroupUnmarshalJSON (b : String) : Except String String :=
  let ag := trimQuotes b
  match AutoGroupValidate ag with
  | .ok _ => .ok ag
  | .error e => .error e

/-- `AutoGroup.Resolve` (part_013): `autogroup:internet` resolves to the
internet set; every other autogroup resolves to `nil`. -/
def AutoGroupResolve (ag : String) : Option (Addr → Bool) :=
  if ag == AutoGroupInternet then some theInternet else none

end policyv2

/-! ## hscontrol/policyv2/types.go: the second AutoGroup validator -/

namespace policyv2types

/-- `AutoGroup.Valid` (hscontrol/policyv2/types.go): any string with the
`autogroup:` marker at the front is considered valid — no closed-set
check. -/
def AutoGroupValid (ag : String) : Bool := strStartsWith ag "autogroup:"

/-- `AutoGroup.UnmarshalJSON` (hscontrol/policyv2/types.go): trim the
JSON quotes and check only `Valid`. -/
def AutoGroupUnmarshalJSON (b : String) : Except String String :=
  let ag := policyv2.trimQuotes b
  if !(AutoGroupValid ag) then .error ("invalid autogroup " ++ ag)
  else .ok ag

end policyv2types

/-! ## src/unnamed/part_017: SSHActionHandler and SSHWaitHandler

The handlers are modelled as pure functions of the node table, the Noise
connection's machine key, the current time (seconds), the random token
suffix drawn in the handler, and the URL variables.  HTTP error
responses, reject actions, accept actions and hold-and-delegate actions
are the four result shapes. -/

/-- The fields of `types.Node` the SSH handlers read.  `Tagged` carries
the result of `IsTagged()` (modelled from the spec: a node is tagged iff
it has forced tags or stamped auth-key tags). -/
structure DbNode where
  ID : Nat
  MachineKey : String
  UserID : Nat
  Tagged : Bool
  Expiry : Option Nat
  LastSeen : Option Nat
  Hostname : String
deriving Repr, DecidableEq

/-- Modelled from the spec: `types.Node.IsExpired` — the node's expiry is
set and lies in the past. -/
def DbNode.IsExpired (now : Nat) (n : DbNode) : Bool :=
  match n.Expiry with
  | some e => e < now
  | none => false

/-- `db.GetNodeByID`. -/
def GetNodeByID (db : List DbNode) (id : Nat) : Option DbNode :=
  db.find? (fun n => n.ID == id)

/-- The verdicts an SSH handler can produce. -/
inductive SSHResult where
  | httpErr (status : Nat)
  | reject (msg : String)
  | accept (msg : String)
  | holdAndDelegate (url : String)
deriving Repr, DecidableEq

/-- The 24-hour recent-login window of `SSHActionHandler`. -/
def recentLoginWindow : Nat := 24 * 60 * 60

/-- `SSHActionHandler` (part_017): look up the destination and check its
machine key against the connection, look up the source, reject tagged
sources, reject cross-user access to untagged destinations, reject
expired sources; accept on a recent login, otherwise hold-and-delegate
with a fresh token `srcID-<random>` and the wait URL. -/
def SSHActionHandler (db : List DbNode) (machineKey : String) (now : Nat)
    (randSuffix : String) (srcID dstID : Nat) : SSHResult :=
  match GetNodeByID db dstID with
  | none => .httpErr 404
  | some dstNode =>
      if dstNode.MachineKey ≠ machineKey then .httpErr 401
      else
        match GetNodeByID db srcID with
        | none => .httpErr 404
        | some srcNode =>
            if srcNode.Tagged then
              .reject "SSH access denied: source node is tagged"
            else if !dstNode.Tagged && dstNode.UserID ≠ srcNode.UserID then
              .reject "SSH access denied: different users"
            else if srcNode.IsExpired now then
              .reject "SSH access denied: source node is expired"
            else
              match srcNode.LastSeen with
              | some ls =>
                  if now - ls < recentLoginWindow then
                    .accept ("SSH connection from " ++ srcNode.Hostname ++
                      " authorized (recent authentication)\n")
                  else
                    .holdAndDelegate ("/machine/ssh/wait/" ++ toString srcID ++
                      "/to/" ++ toString dstID ++ "/a/" ++
                      toString srcNode.ID ++ "-" ++ randSuffix)
              | none =>
                  .holdAndDelegate ("/machine/ssh/wait/" ++ toString srcID ++
                    "/to/" ++ toString dstID ++ "/a/" ++
                    toString srcNode.ID ++ "-" ++ randSuffix)

/-- A verdict that lets the SSH connection proceed (accept now, or hold
and delegate to the wait endpoint). -/
def sshPermissive (r : SSHResult) : Bool :=
  match r with
  | .accept _ => true
  | .holdAndDelegate _ => true
  | _ => false

/-- `SSHWaitHandler` (part_017): look up the destination and check its
machine key, look up the source, and check only that the token has the
form `<srcNode.ID>-…`; it consults no record of a completed
authentication and then writes an accept action. -/
def SSHWaitHandler (db : List DbNode) (machineKey : String)
    (srcID dstID : Nat) (authToken : String) : SSHResult :=
  match GetNodeByID db dstID with
  | none => .httpErr 404
  | some dstNode =>
      if dstNode.MachineKey ≠ machineKey then .httpErr 401
      else
        match GetNodeByID db srcID with
        | none => .httpErr 404
        | some srcNode =>
            if !(strStartsWith authToken (toString srcNode.ID ++ "-")) then
              .httpErr 401
            else
              .accept ("SSH connection from " ++ srcNode.Hostname ++ " authorized\n")

/-- The internet set exactly as the claim words it: all of IPv4 plus
2000::/3, minus the RFC1918 private ranges and the Tailscale CGNAT and
ULA ranges, and nothing else. -/
def claimedInternet (a : Addr) : Bool :=
  (cidrContains allIPv4 a ||
    cidrContains { v6 := true, val := 0x2000 * 2 ^ 112, bits := 3 } a) &&
  !(cidrContains { v6 := false, val := 10 * 2 ^ 24, bits := 8 } a ||
    cidrContains { v6 := false, val := 172 * 2 ^ 24 + 16 * 2 ^ 16, bits := 12 } a ||
    cidrContains { v6 := false, val := 192 * 2 ^ 24 + 168 * 2 ^ 16, bits := 16 } a ||
    cidrContains cgnatRange a ||
    cidrContains tailscaleULARange a)

/-- The amended description of the internet set: additionally minus
fc00::/7 (which covers the ULA range) and the link-local ranges
fe80::/10 and 169.254.0.0/16. -/
def amendedInternet (a : Addr) : Bool :=
  (cidrContains { v6 := true, val := 0x2000 * 2 ^ 112, bits := 3 } a ||
    cidrContains allIPv4 a) &&
  !(cidrContains { v6 := true, val := 0xfc00 * 2 ^ 112, bits := 7 } a ||
    cidrContains { v6 := false, val := 10 * 2 ^ 24, bits := 8 } a ||
    cidrContains { v6 := false, val := 172 * 2 ^ 24 + 16 * 2 ^ 16, bits := 12 } a ||
    cidrContains { v6 := false, val := 192 * 2 ^ 24 + 168 * 2 ^ 16, bits := 16 } a ||
    cidrContains tailscaleULARange a ||
    cidrContains cgnatRange a ||
    cidrContains { v6 := true, val := 0xfe80 * 2 ^ 112, bits := 10 } a ||
    cidrContains { v6 := false, val := 169 * 2 ^ 24 + 254 * 2 ^ 16, bits := 16 } a)

/-- The closed autogroup set named by the spec. -/
def specAutogroups : List String :=
  ["autogroup:internet", "autogroup:self", "autogroup:member",
   "autogroup:tagged", "autogroup:nonroot", "autogroup:danger-all"]

/-! ## Route persistence and failover

Embeds the routes db code concatenated into
`hscontrol/mapper/batcher_lockfree.go` (`EnableRoute`, `DisableRoute`,
`failoverRouteTx`, `failoverRoute`).  The relational table is a list of
route rows; `tx.Save` replaces the row with the matching id. -/

/-- A `types.Route` row.  `Pfx` is the `Prefix` column. -/
structure Route where
  ID : Nat
  NodeID : Nat
  Pfx : Cidr
  Advertised : Bool
  Enabled : Bool
  IsPrimary : Bool
deriving Repr, DecidableEq

/-- `types.ExitRouteV4` = 0.0.0.0/0. -/
def ExitRouteV4 : Cidr := allIPv4

/-- `types.ExitRouteV6` = ::/0. -/
def ExitRouteV6 : Cidr := allIPv6

/-- Modelled from the spec: `types.Route.IsExitRoute` — the prefix is one
of the exit pair 0.0.0.0/0 and ::/0 (spec glossary "Exit route"). -/
def Route.IsExitRoute (r : Route) : Bool :=
  r.Pfx == ExitRouteV4 || r.Pfx == ExitRouteV6

/-- `types.NodeConnectedMap` lookup: a missing key (or nil map) reads
false. -/
def connLookup (m : List (Nat × Bool)) (id : Nat) : Bool :=
  ((m.find? (fun p => p.1 == id)).map Prod.snd).getD false

/-- `tx.Save`: replace the row with the matching primary key. -/
def saveRoute (db : List Route) (r : Route) : List Route :=
  db.map (fun x => if x.ID == r.ID then r else x)

/-- Modelled from the spec: `enableRoutes(tx, node, prefixes...)` marks
the node's routes with the given prefixes enabled; per the spec's
invariant ("exit routes … are never marked primary") enabling does not
touch `IsPrimary`. -/
def enableRoutes (db : List Route) (nodeID : Nat) (pfxs : List Cidr) : List Route :=
  db.map (fun r =>
    if r.NodeID == nodeID && pfxs.contains r.Pfx then { r with Enabled := true } else r)

/-- `EnableRoute` (routes db): an exit route is enabled as the
IPv4/IPv6 pair in the same transaction, otherwise only its own prefix. -/
def EnableRoute (db : List Route) (id : Nat) : Option (List Route) :=
  match db.find? (fun r => r.ID == id) with
  | none => none
  | some route =>
      if route.IsExitRoute then
        some (enableRoutes db route.NodeID [ExitRouteV4, ExitRouteV6])
      else
        some (enableRoutes db route.NodeID [route.Pfx])

/-- `failoverRoute` (routes db): pick the first alternative with a
different id that is enabled and connected; the old primary loses and
the new one gains the primary flag.  Nothing happens for a non-primary
or exit route. -/
def failoverRoute (isConnected : List (Nat × Bool)) (routeToReplace : Option Route)
    (altRoutes : List Route) : Option (Route × Route) :=
  match routeToReplace with
  | none => none
  | some rtr =>
      if !rtr.IsPrimary then none
      else if rtr.IsExitRoute then none
      else
        match altRoutes.find? (fun route =>
            !(rtr.ID == route.ID) && route.Enabled &&
              connLookup isConnected route.NodeID) with
        | none => none
        | some np => some ({ rtr with IsPrimary := false }, { np with IsPrimary := true })

/-- `failoverRouteTx` (routes db): look up the routes sharing the prefix
and apply `failoverRoute`, saving the old and new primary; returns the
updated table and the changed node ids (`none` when nothing was done). -/
def failoverRouteTx (db : List Route) (isConnected : List (Nat × Bool))
    (r : Option Route) : List Route × Option (List Nat) :=
  match r with
  | none => (db, none)
  | some rr =>
      if !rr.IsPrimary then (db, none)
      else if rr.IsExitRoute then (db, none)
      else
        let routes := db.filter (fun x => x.Pfx == rr.Pfx)
        match failoverRoute isConnected (some rr) routes with
        | none => (db, none)
        | some (old, nw) => (saveRoute (saveRoute db old) nw, some [old.NodeID, nw.NodeID])

/-- `DisableRoute` (routes db): a non-exit route is disabled and failed
over; an exit route disables the node's whole exit pair, clearing
`IsPrimary`, in the same transaction.  Returns the updated table and the
node ids to update. -/
def DisableRoute (db : List Route) (isConnected : List (Nat × Bool)) (id : Nat) :
    Option (List Route × List Nat) :=
  match db.find? (fun r => r.ID == id) with
  | none => none
  | some route =>
      if !route.IsExitRoute then
        let routeSaved := { route with Enabled := false }
        let db1 := saveRoute db routeSaved
        let res := failoverRouteTx db1 isConnected (some routeSaved)
        match res.2 with
        | none => some (res.1, [route.NodeID])
        | some u => some (res.1, u)
      else
        let db1 := db.map (fun x =>
          if x.NodeID == route.NodeID && x.IsExitRoute then
            { x with Enabled := false, IsPrimary := false }
          else x)
        some (db1, [route.NodeID])

/-! ## hscontrol/policy/v2: policy types and filter compilation

`filter.go` is part of the covered source; the package's type definitions
(`Alias`, `ACL`, `Policy`, `types.NodeView`) are not, and are modelled
from the spec.  `netipx.IPSet` is modelled as its prefix list: the
builder's normalization is abstracted away, which preserves membership
and emptiness, the two things the compiler inspects. -/

/-- Modelled from the spec: a user record (id and name). -/
structure User where
  ID : Nat
  Name : String
deriving Repr, DecidableEq

/-- Modelled from the spec: the node view the compiler reads — id, owning
user, the result of `IsTagged()` (forced or auth-key tags present), the
tag list, and the node's tailnet addresses. -/
structure NodeView where
  ID : Nat
  UserID : Nat
  UserName : String
  Tagged : Bool
  Tags : List String
  IPs : List Addr
deriving Repr, DecidableEq

/-- Modelled from the spec: the closed set of typed alias variants
(`Asterix, Username, Group, Tag, Host, Prefix, AutoGroup`). -/
inductive Alias where
  | asterix
  | username (u : String)
  | group (g : String)
  | tag (t : String)
  | host (h : String)
  | cidr (p : Cidr)
  | autogroup (ag : String)
deriving Repr, DecidableEq

/-- An alias with destination ports (`AliasWithPorts`); `al` is the
embedded `Alias`. -/
structure AliasWithPorts where
  al : Alias
  Ports : List PortRange
deriving Repr, DecidableEq

/-- An ACL rule of the v2 policy. -/
structure ACL where
  Action : String
  Protocol : String
  Sources : List Alias
  Destinations : List AliasWithPorts
deriving Repr, DecidableEq

/-- The parts of the v2 `Policy` the filter compiler reads. -/
structure Policy where
  Groups : List (String × List String)
  Hosts : List (String × Cidr)
  ACLs : List ACL
deriving Repr, DecidableEq

/-- `ActionAccept`. -/
def ActionAccept : String := "accept"

/-- `ErrInvalidAction` (filter.go). -/
def ErrInvalidAction : String := "invalid action"

/-- `errSelfInSources` (filter.go). -/
def errSelfInSources : String := "autogroup:self cannot be used in sources"

/-- `ag.Is(AutoGroupSelf)`. -/
def isAutogroupSelf : Alias → Bool
  | .autogroup ag => ag == "autogroup:self"
  | _ => false

/-- `ag.Is(AutoGroupInternet)`. -/
def isAutogroupInternet : Alias → Bool
  | .autogroup ag => ag == "autogroup:internet"
  | _ => false

/-- Membership of an address in a prefix-list IP set. -/
def ipSetContains (s : List Cidr) (a : Addr) : Bool :=
  s.any (fun p => cidrContains p a)

/-- `netip.PrefixFrom(ip, ip.BitLen())`: an address as a host prefix. -/
def addrPfx (a : Addr) : Cidr :=
  { v6 := a.v6, val := a.val, bits := if a.v6 then 128 else 32 }

/-- `node.AppendToIPSet`: the node's addresses as host prefixes. -/
def nodeCidrs (n : NodeView) : List Cidr := n.IPs.map addrPfx

/-- Stands in for `netip.Prefix.String`; the exact textual rendering
does not matter to any theorem, only that rules carry the prefixes. -/
def Cidr.str (p : Cidr) : String :=
  (if p.v6 then "v6:" else "v4:") ++ toString p.val ++ "/" ++ toString p.bits

/-- `ipSetToPrefixStringList` (filter.go); the source's nil-set guard is
the `Option` at the call sites. -/
def ipSetToPrefixStringList (ips : List Cidr) : List String :=
  ips.map Cidr.str

/-- Modelled from the spec: `Protocol.parseProtocol` — empty means the
implied ICMP4+ICMP6+TCP+UDP (the compiler then omits `IPProto`);
named protocols map to their IANA numbers, numeric strings parse as
numbers. -/
def parseProtocolField (s : String) : List Int :=
  match s with
  | "" => []
  | "tcp" => [6]
  | "udp" => [17]
  | "sctp" => [132]
  | "icmp" => [1, 58]
  | "igmp" => [2]
  | "gre" => [47]
  | "esp" => [50]
  | "ah" => [51]
  | _ =>
      match s.toNat? with
      | some n => [Int.ofNat n]
      | none => []

/-- Modelled from the spec (§4.C4 alias resolution): `*` is all of
IPv4 ∪ IPv6; a username is the addresses of the untagged nodes owned by
that user; a group is the union over its usernames; a tag is the
addresses of the nodes carrying it; a host is its declared prefix
(`none` — a nil set — when undeclared); a prefix is itself.  Autogroups
are never resolved on the compile paths verified here: internet
destinations are filtered out before resolution and `autogroup:self` is
handled before resolution (error in sources, split out of destinations),
so their resolution is left opaque (`none`). -/
def Alias.Resolve (pol : Policy) (users : List User) (nodes : List NodeView) :
    Alias → Option (List Cidr)
  | .asterix => some [allIPv4, allIPv6]
  | .username u =>
      some (((nodes.filter (fun n => !n.Tagged && n.UserName == u)).map nodeCidrs).flatten)
  | .group g =>
      some (((((pol.Groups.find? (fun p => p.1 == g)).map Prod.snd).getD []).map
        (fun u =>
          ((nodes.filter (fun n => !n.Tagged && n.UserName == u)).map nodeCidrs).flatten)).flatten)
  | .tag t =>
      some (((nodes.filter (fun n => n.Tags.contains t)).map nodeCidrs).flatten)
  | .host h => (pol.Hosts.find? (fun p => p.1 == h)).map (fun p => [p.2])
  | .cidr p => some [p]
  | .autogroup _ => none

/-- Modelled from the spec: `Aliases.Resolve` — the union of the member
resolutions (failed members are logged and contribute nothing). -/
def resolveAliases (pol : Policy) (users : List User) (nodes : List NodeView)
    (srcs : List Alias) : Option (List Cidr) :=
  some ((srcs.map (fun s => (Alias.Resolve pol users nodes s).getD [])).flatten)

/-- The source loop of `compileACLWithAutogroupSelf` (filter.go): resolve
each source in order, failing on `autogroup:self`; resolution errors are
only logged, and `nil` sets are dropped. -/
def resolveSources (pol : Policy) (users : List User) (nodes : List NodeView) :
    List Alias → Except String (List (List Cidr))
  | [] => .ok []
  | src :: rest =>
      if isAutogroupSelf src then .error errSelfInSources
      else
        match Alias.Resolve pol users nodes src with
        | some ips =>
            match resolveSources pol users nodes rest with
            | .ok l => .ok (ips :: l)
            | .error e => .error e
        | none => resolveSources pol users nodes rest

/-- The destination loop body shared by `compileFilterRules` and the
other-destinations block of `compileACLWithAutogroupSelf`: a wildcard is
emitted literally, `autogroup:internet` emits nothing, and every other
destination expands its resolved prefixes against its ports. -/
def destPortsFor (pol : Policy) (users : List User) (nodes : List NodeView)
    (dest : AliasWithPorts) : List NetPortRange :=
  match dest.al with
  | .asterix => dest.Ports.map (fun port => { IP := "*", Ports := port })
  | _ =>
      if isAutogroupInternet dest.al then []
      else
        match Alias.Resolve pol users nodes dest.al with
        | none => []
        | some ips =>
            ((ips.map (fun pref =>
              dest.Ports.map (fun port =>
                ({ IP := pref.str, Ports := port } : NetPortRange)))).flatten)

/-- `compileACLWithAutogroupSelf` (filter.go): split the destinations
into `autogroup:self` and the rest; error when a source is
`autogroup:self`; for the self part (skipped on tagged target nodes)
restrict sources and destinations to same-user untagged devices and the
target's addresses; for the rest use the full source set.  The only
error the source can produce besides `errSelfInSources` is from the
builder's `IPSet()` call, which cannot fail in this model. -/
def compileACLWithAutogroupSelf (pol : Policy) (acl : ACL) (users : List User)
    (node : NodeView) (nodes : List NodeView) : Except String (List FilterRule) :=
  let autogroupSelfDests := acl.Destinations.filter (fun d => isAutogroupSelf d.al)
  let otherDests := acl.Destinations.filter (fun d => !isAutogroupSelf d.al)
  let protocols := parseProtocolField acl.Protocol
  match resolveSources pol users nodes acl.Sources with
  | .error e => .error e
  | .ok resolvedSrcIPs =>
      if resolvedSrcIPs.length == 0 then .ok []
      else
        let sameUserNodes := nodes.filter (fun n => !n.Tagged && n.UserID == node.UserID)
        let selfRules :=
          if autogroupSelfDests.length > 0 && !node.Tagged then
            if sameUserNodes.length > 0 then
              let srcSet :=
                ((resolvedSrcIPs.map (fun ips =>
                  (((sameUserNodes.filter (fun n =>
                    n.IPs.any (fun ip => ipSetContains ips ip))).map nodeCidrs).flatten))).flatten)
              if srcSet.length > 0 then
                let destPorts :=
                  ((autogroupSelfDests.map (fun dest =>
                    ((sameUserNodes.map (fun n =>
                      ((dest.Ports.map (fun port =>
                        n.IPs.map (fun ip =>
                          ({ IP := (addrPfx ip).str, Ports := port } : NetPortRange)))).flatten))).flatten))).flatten)
                if destPorts.length > 0 then
                  [{ SrcIPs := ipSetToPrefixStringList srcSet,
                     DstPorts := destPorts, IPProto := protocols }]
                else []
              else []
            else []
          else []
        let otherRules :=
          if otherDests.length > 0 then
            let srcSet := resolvedSrcIPs.flatten
            if srcSet.length > 0 then
              let destPorts := ((otherDests.map (destPortsFor pol users nodes)).flatten)
              if destPorts.length > 0 then
                [{ SrcIPs := ipSetToPrefixStringList srcSet,
                   DstPorts := destPorts, IPProto := protocols }]
              else []
            else []
          else []
        .ok (selfRules ++ otherRules)

/-- `tailcfg.FilterAllowAll`. -/
def FilterAllowAll : List FilterRule :=
  [{ SrcIPs := ["*"],
     DstPorts := [{ IP := "*", Ports := { First := 0, Last := 65535 } }],
     IPProto := [] }]

/-- The ACL loop of `compileFilterRulesForNode`: a non-accept action is
a fatal error; a per-ACL compile error is logged and the ACL skipped;
the non-nil rules are collected. -/
def compileACLsForNode (pol : Policy) (users : List User) (node : NodeView)
    (nodes : List NodeView) : List ACL → Except String (List FilterRule)
  | [] => .ok []
  | acl :: rest =>
      if acl.Action ≠ ActionAccept then .error ErrInvalidAction
      else
        let aclRules :=
          match compileACLWithAutogroupSelf pol acl users node nodes with
          | .ok rs => rs
          | .error _ => []
        match compileACLsForNode pol users node nodes rest with
        | .ok rs => .ok (aclRules ++ rs)
        | .error e => .error e

/-- `compileFilterRulesForNode` (filter.go): allow-all for a nil policy,
otherwise compile each ACL (per-node) and merge. -/
def compileFilterRulesForNode (pol : Option Policy) (users : List User)
    (node : NodeView) (nodes : List NodeView) : Except String (List FilterRule) :=
  match pol with
  | none => .ok FilterAllowAll
  | some p =>
      match compileACLsForNode p users node nodes p.ACLs with
      | .ok rules => .ok (mergeFilterRules rules)
      | .error e => .error e

/-- The ACL loop of `compileFilterRules` (filter.go): a non-accept action
is a fatal error; an ACL with an empty (or nil) source set or no
destination ports is skipped. -/
def compileACLs (pol : Policy) (users : List User) (nodes : List NodeView) :
    List ACL → Except String (List FilterRule)
  | [] => .ok []
  | acl :: rest =>
      if acl.Action ≠ ActionAccept then .error ErrInvalidAction
      else
        let aclRules :=
          match resolveAliases pol users nodes acl.Sources with
          | none => []
          | some srcIPs =>
              if srcIPs.length == 0 then []
              else
                let protocols := parseProtocolField acl.Protocol
                let destPorts := ((acl.Destinations.map (destPortsFor pol users nodes)).flatten)
                if destPorts.length == 0 then []
                else
                  [{ SrcIPs := ipSetToPrefixStringList srcIPs,
                     DstPorts := destPorts, IPProto := protocols }]
        match compileACLs pol users nodes rest with
        | .ok rs => .ok (aclRules ++ rs)
        | .error e => .error e

/-- `compileFilterRules` (filter.go): allow-all for a nil policy or nil
ACL list, otherwise compile every ACL and merge. -/
def compileFilterRules (pol : Option Policy) (users : List User)
    (nodes : List NodeView) : Except String (List FilterRule) :=
  match pol with
  | none => .ok FilterAllowAll
  | some p =>
      match compileACLs p users nodes p.ACLs with
      | .ok rules => .ok (mergeFilterRules rules)
      | .error e => .error e

/-! ### Lemmas about mergeStep and mergeFold -/

lemma mergeStep_of_key_notin (acc : List FilterRule) (rule : FilterRule)
    (h : ∀ a ∈ acc, filterRuleKey a ≠ filterRuleKey rule) :
    mergeStep acc rule = acc ++ [rule] := by
  induction acc with
  | nil => simp [mergeStep]
  | cons r rs ih =>
      have hr := h r (by simp)
      simp only [mergeStep, if_neg hr, List.cons_append, List.cons.injEq, true_and]
      exact ih (fun a ha => h a (by simp [ha]))

lemma mem_mergeStep_key (acc : List FilterRule) (rule : FilterRule) :
    ∀ x ∈ mergeStep acc rule,
      filterRuleKey x ∈ acc.map filterRuleKey ∨ filterRuleKey x = filterRuleKey rule := by
  induction acc with
  | nil =>
      intro x hx
      simp only [mergeStep, List.mem_singleton] at hx
      subst hx
      right; rfl
  | cons r rs ih =>
      intro x hx
      by_cases hk : filterRuleKey r = filterRuleKey rule
      · simp only [mergeStep, if_pos hk] at hx
        rcases List.mem_cons.mp hx with h | h
        · subst h
          left
          simp only [List.map_cons, List.mem_cons]
          exact Or.inl rfl
        · left
          simp only [List.map_cons, List.mem_cons]
          exact Or.inr (List.mem_map.mpr ⟨x, h, rfl⟩)
      · simp only [mergeStep, if_neg hk] at hx
        rcases List.mem_cons.mp hx with h | h
        · subst h; left; simp
        · rcases ih x h with h' | h'
          · left; simp only [List.map_cons, List.mem_cons]; right; exact h'
          · right; exact h'

lemma distinctKeys_mergeStep {acc : List FilterRule} (rule : FilterRule)
    (h : distinctKeys acc) : distinctKeys (mergeStep acc rule) := by
  induction acc with
  | nil => simp [mergeStep, distinctKeys]
  | cons r rs ih =>
      rcases List.pairwise_cons.mp h with ⟨hr, hrs⟩
      by_cases hk : filterRuleKey r = filterRuleKey rule
      · simp only [mergeStep, if_pos hk]
        exact List.pairwise_cons.mpr ⟨fun x hx => hr x hx, hrs⟩
      · simp only [mergeStep, if_neg hk]
        refine List.pairwise_cons.mpr ⟨?_, ih hrs⟩
        intro x hx
        rcases mem_mergeStep_key rs rule x hx with h' | h'
        · rcases List.mem_map.mp h' with ⟨a, ha, hka⟩
          rw [← hka]; exact hr a ha
        · rw [h']; exact hk

lemma distinctKeys_mergeFoldAux (rs : List FilterRule) :
    ∀ acc, distinctKeys acc → distinctKeys (List.foldl mergeStep acc rs) := by
  induction rs with
  | nil => intro acc h; simpa using h
  | cons r t ih =>
      intro acc h
      simpa [List.foldl_cons] using ih (mergeStep acc r) (distinctKeys_mergeStep r h)

lemma rulesWithKey_cons (k : String) (r : FilterRule) (rs : List FilterRule) :
    rulesWithKey k (r :: rs) =
      if filterRuleKey r = k then r :: rulesWithKey k rs else rulesWithKey k rs := by
  by_cases h : filterRuleKey r = k <;> simp [rulesWithKey, List.filter_cons, h]

lemma rulesWithKey_eq_nil (k : String) (rs : List FilterRule)
    (h : ∀ a ∈ rs, filterRuleKey a ≠ k) : rulesWithKey k rs = [] := by
  rw [rulesWithKey, List.filter_eq_nil_iff]
  intro a ha
  simpa using h a ha

lemma mergedRuleFor_cons_ne (k : String) (r : FilterRule) (t : List FilterRule)
    (h : filterRuleKey r ≠ k) : mergedRuleFor k (r :: t) = mergedRuleFor k t := by
  rw [mergedRuleFor, mergedRuleFor, rulesWithKey_cons, if_neg h]

lemma rulesWithKey_mergeStep_ne (acc : List FilterRule) (rule : FilterRule)
    (k : String) (h : filterRuleKey rule ≠ k) :
    rulesWithKey k (mergeStep acc rule) = rulesWithKey k acc := by
  induction acc with
  | nil => simp [mergeStep, rulesWithKey, List.filter_cons, h]
  | cons r rs ih =>
      by_cases hk : filterRuleKey r = filterRuleKey rule
      · have hrk : filterRuleKey r ≠ k := by rw [hk]; exact h
        simp only [mergeStep, if_pos hk]
        rw [rulesWithKey_cons, rulesWithKey_cons]
        have hupd : filterRuleKey
            { SrcIPs := r.SrcIPs, DstPorts := r.DstPorts ++ rule.DstPorts,
              IPProto := r.IPProto } = filterRuleKey r := rfl
        rw [hupd, if_neg hrk, if_neg hrk]
      · simp only [mergeStep, if_neg hk]
        rw [rulesWithKey_cons, rulesWithKey_cons, ih]

lemma rulesWithKey_mergeStep_eq {acc : List FilterRule} (rule : FilterRule)
    (hd : distinctKeys acc) (k : String) (h : filterRuleKey rule = k) :
    rulesWithKey k (mergeStep acc rule) =
      match rulesWithKey k acc with
      | [] => [rule]
      | e :: _ =>
          [{ SrcIPs := e.SrcIPs, DstPorts := e.DstPorts ++ rule.DstPorts,
             IPProto := e.IPProto }] := by
  induction acc with
  | nil => simp [mergeStep, rulesWithKey, List.filter_cons, h]
  | cons r rs ih =>
      rcases List.pairwise_cons.mp hd with ⟨hr, hrs⟩
      by_cases hk : filterRuleKey r = filterRuleKey rule
      · have hrk : filterRuleKey r = k := by rw [hk]; exact h
        have hrsnil : rulesWithKey k rs = [] := by
          refine rulesWithKey_eq_nil k rs (fun a ha => ?_)
          rw [← hrk]
          exact fun hc => (hr a ha) hc.symm
        simp only [mergeStep, if_pos hk]
        rw [rulesWithKey_cons, rulesWithKey_cons]
        have hupd : filterRuleKey
            { SrcIPs := r.SrcIPs, DstPorts := r.DstPorts ++ rule.DstPorts,
              IPProto := r.IPProto } = filterRuleKey r := rfl
        rw [hupd, if_pos hrk, if_pos hrk, hrsnil]
      · have hrk : filterRuleKey r ≠ k := by rw [← h]; exact hk
        simp only [mergeStep, if_neg hk]
        rw [rulesWithKey_cons, rulesWithKey_cons, if_neg hrk, if_neg hrk]
        exact ih hrs

lemma rulesWithKey_foldl (rs : List FilterRule) :
    ∀ acc, distinctKeys acc → ∀ k,
      rulesWithKey k (List.foldl mergeStep acc rs) =
        match rulesWithKey k acc with
        | e :: _ =>
            [{ SrcIPs := e.SrcIPs,
               DstPorts := e.DstPorts ++
                 ((rulesWithKey k rs).map FilterRule.DstPorts).flatten,
               IPProto := e.IPProto }]
        | [] => mergedRuleFor k rs := by
  induction rs with
  | nil =>
      intro acc hacc k
      simp only [List.foldl_nil]
      match hm : rulesWithKey k acc with
      | [] => simp [mergedRuleFor, rulesWithKey]
      | e :: t =>
          have hpw : (rulesWithKey k acc).Pairwise
              (fun a b => filterRuleKey a ≠ filterRuleKey b) :=
            List.Pairwise.sublist (List.filter_sublist _) hacc
          rw [hm] at hpw
          have ht : t = [] := by
            match t with
            | [] => rfl
            | x :: t' =>
                exfalso
                have h1 : filterRuleKey e ≠ filterRuleKey x :=
                  (List.pairwise_cons.mp hpw).1 x (by simp)
                have he : filterRuleKey e = k := by
                  have : e ∈ rulesWithKey k acc := by rw [hm]; simp
                  simpa [rulesWithKey] using (List.mem_filter.mp this).2
                have hx : filterRuleKey x = k := by
                  have : x ∈ rulesWithKey k acc := by rw [hm]; simp
                  simpa [rulesWithKey] using (List.mem_filter.mp this).2
                exact h1 (he.trans hx.symm)
          subst ht
          simp [rulesWithKey]
  | cons r t ih =>
      intro acc hacc k
      rw [List.foldl_cons]
      rw [ih (mergeStep acc r) (distinctKeys_mergeStep r hacc) k]
      by_cases hk : filterRuleKey r = k
      · rw [rulesWithKey_mergeStep_eq r hacc k hk]
        match hm : rulesWithKey k acc with
        | [] =>
            simp only [mergedRuleFor, rulesWithKey_cons, if_pos hk]
            match hmt : rulesWithKey k t with
            | [] => simp
            | r0 :: rest => simp
        | e :: es =>
            simp only [mergedRuleFor, rulesWithKey_cons, if_pos hk,
              List.map_cons, List.flatten_cons, List.append_assoc]
      · rw [rulesWithKey_mergeStep_ne acc r k hk]
        rw [rulesWithKey_cons, if_neg hk, mergedRuleFor_cons_ne k r t hk]

lemma foldl_mergeStep_of_distinct (l : List FilterRule) :
    ∀ acc, distinctKeys (acc ++ l) → List.foldl mergeStep acc l = acc ++ l := by
  induction l with
  | nil => intro acc h; simp
  | cons r t ih =>
      intro acc h
      have hnotin : ∀ a ∈ acc, filterRuleKey a ≠ filterRuleKey r := by
        intro a ha
        exact (List.pairwise_append.mp h).2.2 a ha r (by simp)
      rw [List.foldl_cons, mergeStep_of_key_notin acc r hnotin]
      have : distinctKeys ((acc ++ [r]) ++ t) := by
        simpa [List.append_assoc] using h
      rw [ih (acc ++ [r]) this]
      simp

lemma distinctKeys_mergeFilterRules (rules : List FilterRule) :
    distinctKeys (mergeFilterRules rules) := by
  rw [mergeFilterRules]
  by_cases h : rules.length ≤ 1
  · rw [if_pos h]
    match rules with
    | [] => simp [distinctKeys]
    | [r] => simp [distinctKeys]
    | a :: b :: t => simp at h
  · rw [if_neg h]
    exact distinctKeys_mergeFoldAux rules [] (by simp [distinctKeys])

lemma rulesWithKey_mergeFilterRules (rules : List FilterRule) (k : String) :
    rulesWithKey k (mergeFilterRules rules) = mergedRuleFor k rules := by
  rw [mergeFilterRules]
  by_cases h : rules.length ≤ 1
  · rw [if_pos h]
    match rules with
    | [] => simp [mergedRuleFor, rulesWithKey]
    | [r] =>
        rw [mergedRuleFor]
        by_cases hk : filterRuleKey r = k
        · simp [rulesWithKey_cons, hk, rulesWithKey]
        · simp [rulesWithKey_cons, hk, rulesWithKey]
    | a :: b :: t => simp at h
  · rw [if_neg h, mergeFold]
    have := rulesWithKey_foldl rules [] (by simp [distinctKeys]) k
    simpa [rulesWithKey] using this

lemma mergeFilterRules_idem (rules : List FilterRule) :
    mergeFilterRules (mergeFilterRules rules) = mergeFilterRules rules := by
  have hd := distinctKeys_mergeFilterRules rules
  generalize hl : mergeFilterRules rules = l at hd ⊢
  rw [mergeFilterRules]
  by_cases h : l.length ≤ 1
  · rw [if_pos h]
  · rw [if_neg h, mergeFold]
    simpa using foldl_mergeStep_of_distinct l [] (by simpa [distinctKeys] using hd)

/-! ### Lemmas about the batcher distribution loops -/

lemma foldl_skip_append {α β : Type} (p : α → Bool) (g : α → β) (l : List α) :
    ∀ acc : List β,
      l.foldl (fun acc x => if p x then acc else acc ++ [g x]) acc =
        acc ++ (l.filter (fun x => !p x)).map g := by
  induction l with
  | nil => intro acc; simp
  | cons x t ih =>
      intro acc
      rw [List.foldl_cons, List.filter_cons]
      cases h : p x with
      | true => simp [h, ih]
      | false => simp [h, ih]

lemma onlineOfflineTargets_eq_filter (known : List Nat) (c : ChangeSet) :
    onlineOfflineTargets known c =
      known.filter (fun nodeID => !(c.NodeID == nodeID && !c.AlsoSelf)) := by
  have h := foldl_skip_append
    (fun nodeID => c.NodeID == nodeID && !c.AlsoSelf) (fun n : Nat => n) known []
  simpa [onlineOfflineTargets] using h

lemma immediateDistribution_nodeIDs (known : List Nat) (c : ChangeSet) :
    (immediateDistribution known c).map work.nodeID =
      known.filter (fun nodeID => !(c.NodeID == nodeID && !c.AlsoSelf)) := by
  have h := foldl_skip_append
    (fun nodeID => c.NodeID == nodeID && !c.AlsoSelf)
    (fun n : Nat => ({ c := c, nodeID := n } : work)) known []
  rw [immediateDistribution]
  rw [show (fun (acc : List work) (nodeID : Nat) =>
      if c.NodeID == nodeID && !c.AlsoSelf then acc
      else acc ++ [{ c := c, nodeID := nodeID }]) =
    (fun (acc : List work) (x : Nat) =>
      if c.NodeID == x && !c.AlsoSelf then acc
      else acc ++ [(fun n : Nat => ({ c := c, nodeID := n } : work)) x]) from rfl]
  rw [h, List.nil_append, List.map_map]
  rw [show (work.nodeID ∘ fun n : Nat => ({ c := c, nodeID := n } : work)) = id from rfl]
  rw [List.map_id]

lemma find_storeAssoc {α : Type} (m : List (Nat × α)) (id : Nat) (v : α) :
    (storeAssoc m id v).find? (fun p => p.1 == id) = some (id, v) := by
  induction m with
  | nil => simp [storeAssoc]
  | cons kw rest ih =>
      obtain ⟨k, w⟩ := kw
      by_cases h : (k == id) = true
      · simp [storeAssoc, h]
      · have h' : (k == id) = false := by simpa using h
        simp [storeAssoc, h', List.find?_cons, ih]

lemma orderedLaneOutput_append (a b : List orderedOnlineOfflineWork) :
    orderedLaneOutput (a ++ b) = orderedLaneOutput a ++ orderedLaneOutput b := by
  induction a with
  | nil => simp [orderedLaneOutput]
  | cons x t ih => simp [orderedLaneOutput, ih]

/-! ## Claim theorems for the batcher -/

/-- **C6.** For every change handed to `AddWork`: if `SelfUpdateOnly` is
set, the only target node is the change's node; otherwise the target set
is every node known to the batcher, excluding the change's node unless
`AlsoSelf` is true — for immediately dispatched changes (including the
ordered online/offline lane) and for batched changes alike. -/
theorem addWork_targets_spec (known : List Nat) (c : ChangeSet) :
    addWorkTargets known c = specTargets known c := by
  rw [addWorkTargets, specTargets]
  by_cases himm : shouldProcessImmediately c = true
  · rw [if_pos himm]
    by_cases hsuo : c.SelfUpdateOnly = true
    · simp [hsuo]
    · have hsuo' : c.SelfUpdateOnly = false := by simpa using hsuo
      rw [hsuo']
      simp only [Bool.false_eq_true, if_false]
      by_cases hoo : (c.Change == ChangeKind.nodeCameOnline ||
          c.Change == ChangeKind.nodeWentOffline) = true
      · rw [if_pos hoo, onlineOfflineTargets_eq_filter]
      · rw [if_neg (by simpa using hoo), immediateDistribution_nodeIDs]
  · rw [if_neg himm, addToBatchTargets]
    by_cases hsuo : c.SelfUpdateOnly = true
    · simp [hsuo]
    · have hsuo' : c.SelfUpdateOnly = false := by simpa using hsuo
      rw [hsuo']
      simp only [Bool.false_eq_true, if_false]
      have h := foldl_skip_append
        (fun nodeID => c.NodeID == nodeID && !c.AlsoSelf) (fun n : Nat => n) known []
      simpa using h

/-- **C1.** The ordered-lane consumer is FIFO: for any two online/offline
events `e1` (earlier) and `e2` (later) in the lane, every per-target work
item of `e1` is enqueued into the work channel before any item of `e2`;
in particular, a node targeted by both receives its `e1` item before its
`e2` item.  The first conjunct decomposes the per-node enqueue order into
blocks in lane order; the second shows a targeted node actually gets an
item in its event's block. -/
theorem orderedLane_fifo_per_node (n : Nat) :
    (∀ (pre mid post : List orderedOnlineOfflineWork)
        (e1 e2 : orderedOnlineOfflineWork),
      perNodeLane n (orderedLaneOutput (pre ++ e1 :: mid ++ e2 :: post)) =
        perNodeLane n (orderedLaneOutput pre) ++ perNodeLane n (orderedItems e1) ++
        perNodeLane n (orderedLaneOutput mid) ++ perNodeLane n (orderedItems e2) ++
        perNodeLane n (orderedLaneOutput post)) ∧
    (∀ ow : orderedOnlineOfflineWork, n ∈ ow.targetNodes →
      ({ c := ow.c, nodeID := n } : work) ∈ perNodeLane n (orderedItems ow)) := by
  constructor
  · intro pre mid post e1 e2
    simp [perNodeLane, orderedLaneOutput_append, orderedLaneOutput, List.filter_append]
  · intro ow hn
    rw [perNodeLane, List.mem_filter]
    refine ⟨?_, by simp⟩
    rw [orderedItems, List.mem_map]
    exact ⟨n, hn, rfl⟩

/-- **C4.** `IsConnected` is true iff the node's connection set has a live
channel, or its recorded disconnect timestamp is `nil` (connected) or less
than 45 seconds in the past; and after `RemoveNode` drains the last
channel at time `now`, it stays true for 45 seconds and is false from
`now + 45` on. -/
theorem IsConnected_spec :
    (∀ (st : BatcherState) (now id : Nat),
      IsConnected st now id = true ↔
        (hasActiveConnections st id = true ∨ lookupConnected st id = some none ∨
         ∃ ts, lookupConnected st id = some (some ts) ∧ now - ts < gracePeriod)) ∧
    (∀ (st : BatcherState) (now id c : Nat) (st' : BatcherState),
      lookupNodes st id = some [c] →
      RemoveNode st now id c = (st', true) →
      ∀ t, (t - now < gracePeriod → IsConnected st' t id = true) ∧
           (gracePeriod ≤ t - now → IsConnected st' t id = false)) := by
  constructor
  · intro st now id
    rw [IsConnected]
    by_cases hact : hasActiveConnections st id = true
    · simp [hact]
    · have hact' : hasActiveConnections st id = false := by simpa using hact
      rw [hact']
      simp only [Bool.false_eq_true, if_false]
      match hc : lookupConnected st id with
      | none => simp [hact', hc]
      | some none => simp [hc]
      | some (some ts) => simp [hact', hc]
  · intro st now id c st' hconns hrm
    have hremove : removeConnectionByChannel [c] c = some [] := by
      simp [removeConnectionByChannel]
    have hcomp : RemoveNode st now id c =
        ({ nodes := storeAssoc st.nodes id [],
           connected := storeAssoc st.connected id (some now) }, true) := by
      rw [RemoveNode, hconns]
      simp [hremove]
    rw [hcomp] at hrm
    have hst' : st' =
        { nodes := storeAssoc st.nodes id [],
          connected := storeAssoc st.connected id (some now) } :=
      ((Prod.ext_iff.mp hrm).1).symm
    subst hst'
    intro t
    have hlookupN : lookupNodes
        { nodes := storeAssoc st.nodes id [],
          connected := storeAssoc st.connected id (some now) : BatcherState } id =
        some [] := by
      rw [lookupNodes]
      simp [find_storeAssoc]
    have hlookupC : lookupConnected
        { nodes := storeAssoc st.nodes id [],
          connected := storeAssoc st.connected id (some now) : BatcherState } id =
        some (some now) := by
      rw [lookupConnected]
      simp [find_storeAssoc]
    have hact : hasActiveConnections
        { nodes := storeAssoc st.nodes id [],
          connected := storeAssoc st.connected id (some now) : BatcherState } id =
        false := by
      rw [hasActiveConnections, hlookupN]
      simp
    constructor
    · intro hlt
      rw [IsConnected, hact]
      simp only [Bool.false_eq_true, if_false, hlookupC]
      simpa using hlt
    · intro hge
      rw [IsConnected, hact]
      simp only [Bool.false_eq_true, if_false, hlookupC]
      simpa using Nat.not_lt.mpr hge

/-- Witness for the hypotheses of `IsConnected_spec`: a node with a single
channel is drained at time 100; it is still connected at 144 seconds and
no longer at 145. -/
theorem IsConnected_spec_witness :
    IsConnected { nodes := [(1, [])], connected := [(1, some 100)] } 144 1 = true ∧
    IsConnected { nodes := [(1, [])], connected := [(1, some 100)] } 145 1 = false := by
  have h := IsConnected_spec.2 { nodes := [(1, [7])], connected := [(1, none)] }
    100 1 7 { nodes := [(1, [])], connected := [(1, some 100)] }
    (by decide) (by decide)
  exact ⟨(h 144).1 (by decide), (h 145).2 (by decide)⟩

/-- Witness for the membership hypothesis of `orderedLane_fifo_per_node`:
node 2 is targeted by an online event and receives its work item. -/
theorem orderedLane_fifo_per_node_witness :
    ({ c := { Change := ChangeKind.nodeCameOnline, NodeID := 1,
              SelfUpdateOnly := false, AlsoSelf := false },
       nodeID := 2 } : work) ∈
      perNodeLane 2 (orderedItems
        { c := { Change := ChangeKind.nodeCameOnline, NodeID := 1,
                 SelfUpdateOnly := false, AlsoSelf := false },
          targetNodes := [2, 3], seq := 1 }) :=
  (orderedLane_fifo_per_node 2).2
    { c := { Change := ChangeKind.nodeCameOnline, NodeID := 1,
             SelfUpdateOnly := false, AlsoSelf := false },
      targetNodes := [2, 3], seq := 1 } (by decide)

/-! ### Lemmas about the per-node ACL compilation -/

lemma resolveSources_self (pol : Policy) (users : List User) (nodes : List NodeView) :
    ∀ srcs : List Alias, (∃ src ∈ srcs, isAutogroupSelf src = true) →
      resolveSources pol users nodes srcs = .error errSelfInSources := by
  intro srcs
  induction srcs with
  | nil => rintro ⟨src, h, _⟩; exact absurd h (by simp)
  | cons a t ih =>
      rintro ⟨src, hmem, hself⟩
      simp only [resolveSources]
      by_cases ha : isAutogroupSelf a = true
      · rw [if_pos ha]
      · rw [if_neg ha]
        have hsrc : src ∈ t := by
          rcases List.mem_cons.mp hmem with h | h
          · subst h; exact absurd hself ha
          · exact h
        have ht := ih ⟨src, hsrc, hself⟩
        match hr : Alias.Resolve pol users nodes a with
        | some ips => simp only [hr, ht]
        | none => simp only [hr, ht]

lemma compileACLsForNode_allAccept (pol : Policy) (users : List User)
    (node : NodeView) (nodes : List NodeView) :
    ∀ acls : List ACL, (∀ acl ∈ acls, acl.Action = ActionAccept) →
      (compileACLsForNode pol users node nodes acls).isOk = true := by
  intro acls
  induction acls with
  | nil => intro _; rfl
  | cons a t ih =>
      intro h
      have ha : a.Action = ActionAccept := h a (by simp)
      simp only [compileACLsForNode]
      rw [if_neg (by simp [ha])]
      have ht := ih (fun x hx => h x (by simp [hx]))
      match hm : compileACLsForNode pol users node nodes t with
      | .ok rs => simp only [hm]; rfl
      | .error e =>
          rw [hm] at ht
          exact absurd ht (by simp [Except.isOk, Except.toBool])

/-! ### Lemmas about routes -/

lemma mem_saveRoute {db : List Route} {r x : Route} (hx : x ∈ saveRoute db r) :
    x = r ∨ x ∈ db := by
  rw [saveRoute] at hx
  rcases List.mem_map.mp hx with ⟨y, hy, hxy⟩
  by_cases h : (y.ID == r.ID) = true
  · rw [if_pos h] at hxy; left; exact hxy.symm
  · rw [if_neg h] at hxy; right; exact hxy ▸ hy

lemma failoverRoute_some {isConn : List (Nat × Bool)} {rtr old nw : Route}
    {alts : List Route}
    (h : failoverRoute isConn (some rtr) alts = some (old, nw)) :
    old = { rtr with IsPrimary := false } ∧
    ∃ np, np ∈ alts ∧ nw = { np with IsPrimary := true } := by
  simp only [failoverRoute] at h
  by_cases h1 : rtr.IsPrimary = true
  · rw [if_neg (by simp [h1])] at h
    by_cases h2 : rtr.IsExitRoute = true
    · rw [if_pos h2] at h; exact absurd h (by simp)
    · rw [if_neg h2] at h
      match hf : alts.find? (fun route =>
          !(rtr.ID == route.ID) && route.Enabled &&
            connLookup isConn route.NodeID) with
      | none =>
          simp only [hf] at h
          exact absurd h (by simp)
      | some np =>
          simp only [hf, Option.some.injEq, Prod.mk.injEq] at h
          exact ⟨h.1.symm, np, List.mem_of_find?_eq_some hf, h.2.symm⟩
  · have h1' : rtr.IsPrimary = false := by simpa using h1
    rw [if_pos (by simp [h1'])] at h
    exact absurd h (by simp)

/-- **C9.** Exit routes are handled as an atomic pair and never become
primary through failover: enabling an exit route enables both 0.0.0.0/0
and ::/0 for that node in one transaction; disabling one disables the
whole exit pair and clears the primary flag in one transaction; and
`failoverRouteTx` leaves every exit route exactly as it was, so it never
selects (or newly preserves) an exit route as primary. -/
theorem exitRoutePairing_spec :
    (∀ (db : List Route) (id : Nat) (r : Route),
      db.find? (fun x => x.ID == id) = some r → r.IsExitRoute = true →
      ∃ db', EnableRoute db id = some db' ∧
        ∀ x ∈ db', x.NodeID = r.NodeID → x.IsExitRoute = true → x.Enabled = true) ∧
    (∀ (db : List Route) (isConn : List (Nat × Bool)) (id : Nat) (r : Route),
      db.find? (fun x => x.ID == id) = some r → r.IsExitRoute = true →
      ∃ db' u, DisableRoute db isConn id = some (db', u) ∧
        ∀ x ∈ db', x.NodeID = r.NodeID → x.IsExitRoute = true →
          x.Enabled = false ∧ x.IsPrimary = false) ∧
    (∀ (db db' : List Route) (isConn : List (Nat × Bool)) (r : Route)
        (u : Option (List Nat)),
      failoverRouteTx db isConn (some r) = (db', u) →
      ∀ x ∈ db', x.IsExitRoute = true → x ∈ db) := by
  refine ⟨?_, ?_, ?_⟩
  · intro db id r hfind hexit
    refine ⟨enableRoutes db r.NodeID [ExitRouteV4, ExitRouteV6], ?_, ?_⟩
    · simp only [EnableRoute, hfind, if_pos hexit]
    · intro x hx hnode hxexit
      rw [enableRoutes] at hx
      rcases List.mem_map.mp hx with ⟨y, hy, hxy⟩
      by_cases hc : (y.NodeID == r.NodeID && [ExitRouteV4, ExitRouteV6].contains y.Pfx) = true
      · rw [if_pos hc] at hxy; rw [← hxy]
      · rw [if_neg hc] at hxy
        subst hxy
        exfalso
        apply hc
        have hyp : y.Pfx = ExitRouteV4 ∨ y.Pfx = ExitRouteV6 := by
          have := hxexit
          rw [Route.IsExitRoute] at this
          rcases Bool.or_eq_true_iff.mp this with h | h
          · left; exact beq_iff_eq.mp h
          · right; exact beq_iff_eq.mp h
        rcases hyp with h | h <;> simp [hnode, h, List.contains_cons]
  · intro db isConn id r hfind hexit
    refine ⟨db.map (fun x =>
        if x.NodeID == r.NodeID && x.IsExitRoute then
          { x with Enabled := false, IsPrimary := false }
        else x), [r.NodeID], ?_, ?_⟩
    · simp only [DisableRoute, hfind, hexit, Bool.not_true, Bool.false_eq_true, if_false]
    · intro x hx hnode hxexit
      rcases List.mem_map.mp hx with ⟨y, hy, hxy⟩
      by_cases hc : (y.NodeID == r.NodeID && y.IsExitRoute) = true
      · rw [if_pos hc] at hxy; rw [← hxy]; exact ⟨rfl, rfl⟩
      · rw [if_neg hc] at hxy
        subst hxy
        exfalso
        exact hc (by simp [hnode, hxexit])
  · intro db db' isConn r u h
    simp only [failoverRouteTx] at h
    by_cases h1 : r.IsPrimary = true
    · rw [if_neg (by simp [h1])] at h
      by_cases h2 : r.IsExitRoute = true
      · rw [if_pos h2] at h
        have hdb : db = db' := (Prod.ext_iff.mp h).1
        subst hdb
        intro x hx _; exact hx
      · rw [if_neg h2] at h
        match hf : failoverRoute isConn (some r) (db.filter (fun x => x.Pfx == r.Pfx)) with
        | none =>
            simp only [hf] at h
            have hdb : db = db' := (Prod.ext_iff.mp h).1
            subst hdb
            intro x hx _; exact hx
        | some pair =>
            obtain ⟨old, nw⟩ := pair
            simp only [hf] at h
            have hdb : saveRoute (saveRoute db old) nw = db' := (Prod.ext_iff.mp h).1
            subst hdb
            obtain ⟨hold, np, hnp, hnw⟩ := failoverRoute_some hf
            have hnpfx : np.Pfx = r.Pfx :=
              beq_iff_eq.mp (List.mem_filter.mp hnp).2
            intro x hx hxexit
            rcases mem_saveRoute hx with hxnw | hx1
            · exfalso
              rw [hxnw, hnw] at hxexit
              rw [Route.IsExitRoute] at hxexit h2
              simp only at hxexit
              rw [hnpfx] at hxexit
              exact h2 hxexit
            · rcases mem_saveRoute hx1 with hxold | hy
              · exfalso
                rw [hxold, hold] at hxexit
                rw [Route.IsExitRoute] at hxexit h2
                simp only at hxexit
                exact h2 hxexit
              · exact hy
    · have h1' : r.IsPrimary = false := by simpa using h1
      rw [if_pos (by simp [h1'])] at h
      have hdb : db = db' := (Prod.ext_iff.mp h).1
      subst hdb
      intro x hx _; exact hx

/-- Witness for the hypotheses of `exitRoutePairing_spec`: enabling exit
route 1 enables the pair on node 1; disabling it disables the pair; a
failover of a primary subnet route leaves node 2's exit route in the
table untouched. -/
theorem exitRoutePairing_spec_witness :
    (∃ db', EnableRoute
        [ { ID := 1, NodeID := 1, Pfx := ExitRouteV4, Advertised := true,
            Enabled := false, IsPrimary := false },
          { ID := 2, NodeID := 1, Pfx := ExitRouteV6, Advertised := true,
            Enabled := false, IsPrimary := false } ] 1 = some db' ∧
      ∀ x ∈ db', x.NodeID = 1 → x.IsExitRoute = true → x.Enabled = true) ∧
    (∃ db' u, DisableRoute
        [ { ID := 1, NodeID := 1, Pfx := ExitRouteV4, Advertised := true,
            Enabled := true, IsPrimary := false },
          { ID := 2, NodeID := 1, Pfx := ExitRouteV6, Advertised := true,
            Enabled := true, IsPrimary := false } ] [] 1 = some (db', u) ∧
      ∀ x ∈ db', x.NodeID = 1 → x.IsExitRoute = true →
        x.Enabled = false ∧ x.IsPrimary = false) ∧
    ({ ID := 3, NodeID := 2, Pfx := ExitRouteV4, Advertised := true,
       Enabled := true, IsPrimary := false } : Route) ∈
      [ { ID := 1, NodeID := 1, Pfx := { v6 := false, val := 10 * 2 ^ 24 + 33 * 2 ^ 16, bits := 16 },
          Advertised := true, Enabled := true, IsPrimary := true },
        { ID := 2, NodeID := 2, Pfx := { v6 := false, val := 10 * 2 ^ 24 + 33 * 2 ^ 16, bits := 16 },
          Advertised := true, Enabled := true, IsPrimary := false },
        ({ ID := 3, NodeID := 2, Pfx := ExitRouteV4, Advertised := true,
           Enabled := true, IsPrimary := false } : Route) ] := by
  refine ⟨?_, ?_, ?_⟩
  · exact exitRoutePairing_spec.1 _ 1
      { ID := 1, NodeID := 1, Pfx := ExitRouteV4, Advertised := true,
        Enabled := false, IsPrimary := false } (by decide) (by decide)
  · exact exitRoutePairing_spec.2.1 _ [] 1
      { ID := 1, NodeID := 1, Pfx := ExitRouteV4, Advertised := true,
        Enabled := true, IsPrimary := false } (by decide) (by decide)
  · exact exitRoutePairing_spec.2.2 _
      [ { ID := 1, NodeID := 1, Pfx := { v6 := false, val := 10 * 2 ^ 24 + 33 * 2 ^ 16, bits := 16 },
          Advertised := true, Enabled := true, IsPrimary := false },
        { ID := 2, NodeID := 2, Pfx := { v6 := false, val := 10 * 2 ^ 24 + 33 * 2 ^ 16, bits := 16 },
          Advertised := true, Enabled := true, IsPrimary := true },
        { ID := 3, NodeID := 2, Pfx := ExitRouteV4, Advertised := true,
          Enabled := true, IsPrimary := false } ]
      [(2, true)]
      { ID := 1, NodeID := 1, Pfx := { v6 := false, val := 10 * 2 ^ 24 + 33 * 2 ^ 16, bits := 16 },
        Advertised := true, Enabled := true, IsPrimary := true }
      (some [1, 2]) (by decide) _ (by decide) (by decide)

/-! ## Claim theorems for the filter compiler (C2, C3) -/

/-- **C2.** For every input rule list, the output of `mergeFilterRules`
contains no two rules with identical `(SrcIPs, IPProto)`; for every key,
the output rule carries the concatenation (without deduplication) of the
`DstPorts` of all input rules with that key; merging a second time
leaves the list unchanged; and hence every successful `compileFilterRules`
output has no two rules with identical `(SrcIPs, IPProto)`. -/
theorem mergeFilterRules_spec :
    (∀ rules : List FilterRule,
      (mergeFilterRules rules).Pairwise
        (fun a b => ¬(a.SrcIPs = b.SrcIPs ∧ a.IPProto = b.IPProto))) ∧
    (∀ (rules : List FilterRule) (k : String),
      rulesWithKey k (mergeFilterRules rules) = mergedRuleFor k rules) ∧
    (∀ rules : List FilterRule,
      mergeFilterRules (mergeFilterRules rules) = mergeFilterRules rules) ∧
    (∀ (pol : Option Policy) (users : List User) (nodes : List NodeView)
        (out : List FilterRule),
      compileFilterRules pol users nodes = Except.ok out →
      out.Pairwise
        (fun a b => ¬(a.SrcIPs = b.SrcIPs ∧ a.IPProto = b.IPProto))) := by
  have hpair : ∀ rules : List FilterRule,
      (mergeFilterRules rules).Pairwise
        (fun a b => ¬(a.SrcIPs = b.SrcIPs ∧ a.IPProto = b.IPProto)) := by
    intro rules
    refine (distinctKeys_mergeFilterRules rules).imp ?_
    intro a b hne hc
    exact hne (by rw [filterRuleKey, filterRuleKey, hc.1, hc.2])
  refine ⟨hpair, rulesWithKey_mergeFilterRules, ?_, ?_⟩
  · exact mergeFilterRules_idem
  · intro pol users nodes out h
    match pol with
    | none =>
        rw [compileFilterRules] at h
        have : FilterAllowAll = out := by
          simpa using h
        rw [← this]
        simp [FilterAllowAll]
    | some p =>
        rw [compileFilterRules] at h
        match hm : compileACLs p users nodes p.ACLs with
        | .ok rules =>
            rw [hm] at h
            have : mergeFilterRules rules = out := by simpa using h
            rw [← this]
            exact hpair rules
        | .error e => rw [hm] at h; exact absurd h (by simp)

/-- Witness for the compile hypothesis of `mergeFilterRules_spec`: the
allow-all output of a nil policy has pairwise distinct
`(SrcIPs, IPProto)`. -/
theorem mergeFilterRules_spec_witness :
    FilterAllowAll.Pairwise
      (fun a b => ¬(a.SrcIPs = b.SrcIPs ∧ a.IPProto = b.IPProto)) :=
  mergeFilterRules_spec.2.2.2 none [] [] FilterAllowAll rfl

/-- **C3 counterexample.** A policy whose only (accept) ACL lists
`autogroup:self` among its sources: `compileFilterRulesForNode` does not
fail — the per-ACL error is logged and the ACL skipped — and returns an
empty rule list without error. -/
theorem compileFilterRulesForNode_swallows_self :
    compileFilterRulesForNode
      (some { Groups := [], Hosts := [],
              ACLs := [{ Action := "accept", Protocol := "",
                         Sources := [Alias.autogroup "autogroup:self"],
                         Destinations := [{ al := Alias.asterix,
                                            Ports := [{ First := 22, Last := 22 }] }] }] })
      [{ ID := 1, Name := "u@x" }]
      { ID := 1, UserID := 1, UserName := "u@x", Tagged := false, Tags := [],
        IPs := [{ v6 := false, val := 100 * 2 ^ 24 + 64 * 2 ^ 16 + 1 }] }
      [{ ID := 1, UserID := 1, UserName := "u@x", Tagged := false, Tags := [],
         IPs := [{ v6 := false, val := 100 * 2 ^ 24 + 64 * 2 ^ 16 + 1 }] }] =
      Except.ok [] := by
  rfl

/-- **C3 (amended).** If an ACL lists `autogroup:self` among its sources,
`compileACLWithAutogroupSelf` fails for that rule with
`errSelfInSources`; `compileFilterRulesForNode`, however, logs and skips
the failing rule, and (whenever every ACL action is `accept`) returns a
rule list without error rather than failing. -/
theorem compileSelfInSources_spec :
    (∀ (pol : Policy) (acl : ACL) (users : List User) (node : NodeView)
        (nodes : List NodeView),
      (∃ src ∈ acl.Sources, isAutogroupSelf src = true) →
      compileACLWithAutogroupSelf pol acl users node nodes =
        Except.error errSelfInSources) ∧
    (∀ (pol : Policy) (users : List User) (node : NodeView)
        (nodes : List NodeView),
      (∀ acl ∈ pol.ACLs, acl.Action = ActionAccept) →
      (compileFilterRulesForNode (some pol) users node nodes).isOk = true) := by
  constructor
  · intro pol acl users node nodes h
    simp only [compileACLWithAutogroupSelf,
      resolveSources_self pol users nodes acl.Sources h]
  · intro pol users node nodes h
    have := compileACLsForNode_allAccept pol users node nodes pol.ACLs h
    rw [compileFilterRulesForNode]
    match hm : compileACLsForNode pol users node nodes pol.ACLs with
    | .ok rules => rfl
    | .error e =>
        rw [hm] at this
        exact absurd this (by simp [Except.isOk, Except.toBool])

/-- Witness for the hypotheses of `compileSelfInSources_spec`, at the
counterexample policy. -/
theorem compileSelfInSources_spec_witness :
    compileACLWithAutogroupSelf
      { Groups := [], Hosts := [],
        ACLs := [{ Action := "accept", Protocol := "",
                   Sources := [Alias.autogroup "autogroup:self"],
                   Destinations := [{ al := Alias.asterix,
                                      Ports := [{ First := 22, Last := 22 }] }] }] }
      { Action := "accept", Protocol := "",
        Sources := [Alias.autogroup "autogroup:self"],
        Destinations := [{ al := Alias.asterix,
                           Ports := [{ First := 22, Last := 22 }] }] }
      [{ ID := 1, Name := "u@x" }]
      { ID := 1, UserID := 1, UserName := "u@x", Tagged := false, Tags := [],
        IPs := [{ v6 := false, val := 100 * 2 ^ 24 + 64 * 2 ^ 16 + 1 }] }
      [{ ID := 1, UserID := 1, UserName := "u@x", Tagged := false, Tags := [],
         IPs := [{ v6 := false, val := 100 * 2 ^ 24 + 64 * 2 ^ 16 + 1 }] }] =
      Except.error errSelfInSources ∧
    (compileFilterRulesForNode
      (some { Groups := [], Hosts := [],
              ACLs := [{ Action := "accept", Protocol := "",
                         Sources := [Alias.autogroup "autogroup:self"],
                         Destinations := [{ al := Alias.asterix,
                                            Ports := [{ First := 22, Last := 22 }] }] }] })
      [{ ID := 1, Name := "u@x" }]
      { ID := 1, UserID := 1, UserName := "u@x", Tagged := false, Tags := [],
        IPs := [{ v6 := false, val := 100 * 2 ^ 24 + 64 * 2 ^ 16 + 1 }] }
      [{ ID := 1, UserID := 1, UserName := "u@x", Tagged := false, Tags := [],
         IPs := [{ v6 := false, val := 100 * 2 ^ 24 + 64 * 2 ^ 16 + 1 }] }]).isOk =
      true := by
  constructor
  · exact compileSelfInSources_spec.1 _ _ _ _ _
      ⟨Alias.autogroup "autogroup:self", by simp, by rfl⟩
  · exact compileSelfInSources_spec.2 _ _ _ _
      (by
        intro acl hacl
        simp only [List.mem_singleton] at hacl
        subst hacl
        rfl)

/-! ## Claim theorems for the autogroup validators (C7) -/

/-- **C7 counterexample.** `autogroup:bogus` is outside both the spec's
closed set and the declared `autogroups` list, yet the
`hscontrol/policyv2/types.go` unmarshal accepts it without a validation
error. -/
theorem autogroup_unmarshal_accepts_bogus :
    (policyv2types.AutoGroupUnmarshalJSON "\"autogroup:bogus\"").isOk = true ∧
    (policyv2.AutoGroupUnmarshalJSON "\"autogroup:bogus\"").isOk = false ∧
    "autogroup:bogus" ∉ specAutogroups ∧
    "autogroup:bogus" ∉ policyv2.autogroups := by
  refine ⟨by decide, by decide, by decide, by decide⟩

/-- **C7 (amended).** The part_013 parser rejects at unmarshal every
autogroup outside its declared closed set (exactly
`{autogroup:internet}`); the `hscontrol/policyv2/types.go` variant
accepts any value carrying the `autogroup:` marker, with no closed-set
validation. -/
theorem autogroup_validators_spec :
    (∀ s : String, (policyv2.AutoGroupUnmarshalJSON s).isOk = true ↔
        policyv2.trimQuotes s ∈ policyv2.autogroups) ∧
    (∀ s : String, (policyv2types.AutoGroupUnmarshalJSON s).isOk = true ↔
        strStartsWith (policyv2.trimQuotes s) "autogroup:" = true) := by
  constructor
  · intro s
    by_cases h : policyv2.trimQuotes s ∈ policyv2.autogroups
    · simp [policyv2.AutoGroupUnmarshalJSON, policyv2.AutoGroupValidate, h,
        Except.isOk, Except.toBool]
    · simp [policyv2.AutoGroupUnmarshalJSON, policyv2.AutoGroupValidate, h,
        Except.isOk, Except.toBool]
  · intro s
    by_cases h : strStartsWith (policyv2.trimQuotes s) "autogroup:" = true
    · simp [policyv2types.AutoGroupUnmarshalJSON, policyv2types.AutoGroupValid, h,
        Except.isOk, Except.toBool]
    · simp [policyv2types.AutoGroupUnmarshalJSON, policyv2types.AutoGroupValid, h,
        Except.isOk, Except.toBool]

/-! ## Claim theorems for theInternet (C8) -/

/-- **C8 counterexample.** 169.254.0.1 lies in the set as the claim
describes it, but `theInternet` removes the link-local range
169.254.0.0/16 as well, so the claim's "nothing else outside those
removals" fails. -/
theorem theInternet_ne_claimed :
    claimedInternet { v6 := false, val := 169 * 2 ^ 24 + 254 * 2 ^ 16 + 1 } = true ∧
    policyv2.theInternet { v6 := false, val := 169 * 2 ^ 24 + 254 * 2 ^ 16 + 1 } = false := by
  constructor <;> decide

/-- **C8 (amended).** `theInternet` is exactly IPv4 plus 2000::/3 minus
fc00::/7, the RFC1918 ranges, the Tailscale ULA and CGNAT ranges, and the
link-local ranges fe80::/10 and 169.254.0.0/16; `AutoGroup.Resolve`
returns this one fixed set for `autogroup:internet`, and being a pure
function of its argument, repeated resolutions return an identical set. -/
theorem theInternet_amended_spec :
    (∀ a : Addr, policyv2.theInternet a = amendedInternet a) ∧
    policyv2.AutoGroupResolve policyv2.AutoGroupInternet = some policyv2.theInternet := by
  constructor
  · intro a
    simp only [policyv2.theInternet, memberAfterOps, policyv2.theInternetOps,
      List.foldl_cons, List.foldl_nil, amendedInternet,
      Bool.false_or, Bool.not_or, Bool.and_assoc]
  · rfl

/-! ## Claim theorems for the SSH handlers (C5, C10) -/

/-- **C5.** The SSH action handler yields an accept or hold-and-delegate
verdict exactly when the destination exists with the connection's machine
key, the source exists and is not tagged, the destination is tagged or
owned by the source's user, and the source is not expired; whenever one
of the four checks fails the request is rejected. -/
theorem sshActionHandler_checks (db : List DbNode) (machineKey : String)
    (now : Nat) (randSuffix : String) (srcID dstID : Nat) :
    sshPermissive (SSHActionHandler db machineKey now randSuffix srcID dstID) = true ↔
      ∃ dstNode srcNode,
        GetNodeByID db dstID = some dstNode ∧
        GetNodeByID db srcID = some srcNode ∧
        dstNode.MachineKey = machineKey ∧
        srcNode.Tagged = false ∧
        (dstNode.Tagged = true ∨ dstNode.UserID = srcNode.UserID) ∧
        srcNode.IsExpired now = false := by
  constructor
  · intro h
    rw [SSHActionHandler] at h
    match hd : GetNodeByID db dstID with
    | none => simp only [hd] at h; simp [sshPermissive] at h
    | some dstNode =>
        simp only [hd] at h
        by_cases hk : dstNode.MachineKey = machineKey
        · rw [if_neg (by simp [hk])] at h
          match hs : GetNodeByID db srcID with
          | none => simp only [hs] at h; simp [sshPermissive] at h
          | some srcNode =>
              simp only [hs] at h
              by_cases htag : srcNode.Tagged = true
              · rw [if_pos htag] at h; simp [sshPermissive] at h
              · have htag' : srcNode.Tagged = false := by simpa using htag
                rw [if_neg (by simp [htag'])] at h
                by_cases huser : (!dstNode.Tagged && dstNode.UserID ≠ srcNode.UserID) = true
                · rw [if_pos huser] at h; simp [sshPermissive] at h
                · rw [if_neg (by simpa using huser)] at h
                  by_cases hexp : srcNode.IsExpired now = true
                  · rw [if_pos hexp] at h; simp [sshPermissive] at h
                  · have hexp' : srcNode.IsExpired now = false := by simpa using hexp
                    refine ⟨dstNode, srcNode, rfl, rfl, hk, htag', ?_, hexp'⟩
                    by_cases hdt : dstNode.Tagged = true
                    · left; exact hdt
                    · have hdt' : dstNode.Tagged = false := by simpa using hdt
                      right
                      by_contra hne
                      exact huser (by simp [hdt', hne])
        · rw [if_pos hk] at h; simp [sshPermissive] at h
  · rintro ⟨dstNode, srcNode, hd, hs, hk, htag, huser, hexp⟩
    rw [SSHActionHandler]
    simp only [hd, hs]
    rw [if_neg (by simp [hk]), if_neg (by simp [htag]), if_neg ?hu, if_neg (by simp [hexp])]
    case hu =>
      rcases huser with h1 | h1 <;> simp [h1]
    match hls : srcNode.LastSeen with
    | some ls =>
        simp only [hls]
        by_cases hrec : now - ls < recentLoginWindow
        · rw [if_pos hrec]; rfl
        · rw [if_neg hrec]; rfl
    | none => simp only [hls]; rfl

/-- **C10.** Whenever the destination node exists with the connection's
machine key and the source node exists, the wait handler returns an
accept action as soon as the token merely starts with the source's
numeric id and a dash; it consults no record of a completed delegated
authentication and returns neither a waiting nor a reject verdict. -/
theorem sshWaitHandler_accepts_on_token_shape (db : List DbNode)
    (machineKey : String) (srcID dstID : Nat) (authToken : String)
    (dstNode srcNode : DbNode)
    (h1 : GetNodeByID db dstID = some dstNode)
    (h2 : dstNode.MachineKey = machineKey)
    (h3 : GetNodeByID db srcID = some srcNode)
    (h4 : strStartsWith authToken (toString srcNode.ID ++ "-") = true) :
    SSHWaitHandler db machineKey srcID dstID authToken =
      SSHResult.accept ("SSH connection from " ++ srcNode.Hostname ++ " authorized\n") := by
  rw [SSHWaitHandler]
  simp only [h1, h3]
  rw [if_neg (by simp [h2]), if_neg (by simp [h4])]

/-- Witness for `sshWaitHandler_accepts_on_token_shape`: a token of the
right shape is accepted even though no authentication was recorded. -/
theorem sshWaitHandler_accepts_witness :
    SSHWaitHandler
      [ { ID := 1, MachineKey := "mk-src", UserID := 10, Tagged := false,
          Expiry := none, LastSeen := none, Hostname := "src-host" },
        { ID := 2, MachineKey := "mk-dst", UserID := 10, Tagged := false,
          Expiry := none, LastSeen := none, Hostname := "dst-host" } ]
      "mk-dst" 1 2 "1-abcdef" =
      SSHResult.accept "SSH connection from src-host authorized\n" := by
  have h := sshWaitHandler_accepts_on_token_shape
    [ { ID := 1, MachineKey := "mk-src", UserID := 10, Tagged := false,
        Expiry := none, LastSeen := none, Hostname := "src-host" },
      { ID := 2, MachineKey := "mk-dst", UserID := 10, Tagged := false,
        Expiry := none, LastSeen := none, Hostname := "dst-host" } ]
    "mk-dst" 1 2 "1-abcdef"
    { ID := 2, MachineKey := "mk-dst", UserID := 10, Tagged := false,
      Expiry := none, LastSeen := none, Hostname := "dst-host" }
    { ID := 1, MachineKey := "mk-src", UserID := 10, Tagged := false,
      Expiry := none, LastSeen := none, Hostname := "src-host" }
    (by decide) rfl (by decide) (by decide)
  exact h

end Headscale
